import Mathlib

/-!
Verification of `ml_service/bin_packing.py` (`pack_cluster`): a shallow
embedding of the Best-Fit-Decreasing truck packing routine, together with
theorems about its observable behaviour.

Modelling conventions:
* Python floats are modelled as rationals (`ℚ`).
* A farmer dict is a record with the `farmer_id` string and the `load_kg`
  field; a missing `load_kg` key is `Option.none` (the code reads it with
  `f.get("load_kg", 0)`, defaulting to `0`).
* The `load_kg` value may be a number, or a value on which Python's
  `float(...)` conversion raises (e.g. the string `"bad"`); the latter is
  `LoadVal.nonNumeric`.  Numeric strings that `float` would accept are
  modelled as `LoadVal.num` directly.
* The list comprehension
  `[f for f in farmers if float(f.get("load_kg", 0)) > 0]`
  evaluates `float` on every element in order and raises on the first
  non-coercible value; this fallibility is modelled with `Except String`.
* Python's in-place `list.sort` is a stable sort; it is modelled with
  `List.insertionSort`, which is stable for the total preorders used here.
-/

namespace AgriChain

/-- The value stored under the `load_kg` key of a farmer dict: either a
number (anything Python's `float` accepts, including numeric strings), or a
value on which `float(...)` raises. -/
inductive LoadVal where
  | num (val : ℚ)
  | nonNumeric (raw : String)
deriving DecidableEq

/-- A farmer record: `{'farmer_id': ..., 'load_kg': ...}`; `load_kg` is
`none` when the key is absent. -/
structure Farmer where
  farmer_id : String
  load_kg : Option LoadVal
deriving DecidableEq

/-- A truck dict as built by `pack_cluster`:
`{"farmers": [...], "remaining": ...}`. -/
structure Truck where
  farmers : List String
  remaining : ℚ
deriving DecidableEq

/-- `f.get("load_kg", 0)`: the `load_kg` value, defaulting to `0` when the
key is missing. -/
def getLoadVal (f : Farmer) : LoadVal :=
  f.load_kg.getD (.num 0)

/-- Python's `float(...)` on a `load_kg` value: returns the number, or
raises `ValueError` (modelled as `Except.error`) on a non-coercible value. -/
def floatVal : LoadVal → Except String ℚ
  | .num q => .ok q
  | .nonNumeric s => .error ("could not convert string to float: " ++ s)

/-- The numeric load of a farmer whose `load_kg` coerces; total function
used after coercion has been checked (a non-coercible or missing value maps
to `0`, which agrees with the code on every path on which this function is
actually consulted, since such farmers are filtered out). -/
def loadNum (f : Farmer) : ℚ :=
  match getLoadVal f with
  | .num q => q
  | .nonNumeric _ => 0

/-- Evaluation of `float(f.get("load_kg", 0))` over the whole input list in
order, as the list comprehension in Step 1 does: the first non-coercible
value aborts the call with that error. -/
def coerceAll : List Farmer → Except String (List ℚ)
  | [] => .ok []
  | f :: fs =>
    match floatVal (getLoadVal f) with
    | .error e => .error e
    | .ok v =>
      match coerceAll fs with
      | .error e => .error e
      | .ok vs => .ok (v :: vs)

/-- Step 1 filter: `[f for f in farmers if float(f.get("load_kg", 0)) > 0]`
(its value once every coercion has succeeded). -/
def valid_farmers (farmers : List Farmer) : List Farmer :=
  farmers.filter (fun f => 0 < loadNum f)

/-- Step 1 sort: `valid_farmers.sort(key=..., reverse=True)` — a stable
descending sort by load. -/
def valid_sorted (farmers : List Farmer) : List Farmer :=
  List.insertionSort (fun a b => loadNum b ≤ loadNum a) (valid_farmers farmers)

/-- Python's two-argument `max(x, y)`: `x` when `x >= y`, else `y`.
(Spelled out as a conditional so that it evaluates by kernel reduction;
equal to `max` on `ℚ`, see `pymax_eq_max`.) -/
def pymax (x y : ℚ) : ℚ :=
  if y ≤ x then x else y

/-- The inner `for t in trucks: ... break` loop: place `load` into the
first truck of the list whose remaining capacity is ≥ `load`, appending
`fid` to its farmer list and decreasing its remaining capacity; `none` when
no truck fits (`placed` stays false). -/
def placeFirst (load : ℚ) (fid : String) : List Truck → Option (List Truck)
  | [] => none
  | t :: ts =>
    if t.remaining ≥ load then
      some ({ farmers := t.farmers ++ [fid], remaining := t.remaining - load } :: ts)
    else
      (placeFirst load fid ts).map (t :: ·)

/-- One iteration of the Step 2 loop body for farmer `f`: sort the truck
list in place by remaining capacity (ascending, stable), try to place the
load into the first fitting truck, and otherwise append a fresh truck
`{"farmers": [fid], "remaining": max(capacity - load, 0)}`. -/
def step (capacity : ℚ) (trucks : List Truck) (f : Farmer) : List Truck :=
  let load := loadNum f
  let sorted := List.insertionSort (fun a b : Truck => a.remaining ≤ b.remaining) trucks
  match placeFirst load f.farmer_id sorted with
  | some ts => ts
  | none => sorted ++ [{ farmers := [f.farmer_id], remaining := pymax (capacity - load) 0 }]

/-- The truck list at the end of the Step 2 loop. -/
def packTrucks (farmers : List Farmer) (capacity : ℚ) : List Truck :=
  (valid_sorted farmers).foldl (step capacity) []

/-- `pack_cluster(farmers, capacity)`: the whole routine.  The result is
`Except.error` exactly when Python's `float` raises during the Step 1
comprehension; otherwise the list of each truck's farmer-id list, in the
order in which the trucks sit in the (repeatedly re-sorted) working list
when the loop finishes. -/
def pack_cluster (farmers : List Farmer) (capacity : ℚ) :
    Except String (List (List String)) :=
  match coerceAll farmers with
  | .error e => .error e
  | .ok _ => .ok ((packTrucks farmers capacity).map Truck.farmers)

/-- A truck instrumented with a ghost creation index, used only by the
spec-words variant `pack_cluster_creation` below. -/
structure TruckC where
  farmers : List String
  remaining : ℚ
  created : ℕ
deriving DecidableEq

/-- `placeFirst` on instrumented trucks (same placement logic). -/
def placeFirstC (load : ℚ) (fid : String) : List TruckC → Option (List TruckC)
  | [] => none
  | t :: ts =>
    if t.remaining ≥ load then
      some ({ farmers := t.farmers ++ [fid], remaining := t.remaining - load,
              created := t.created } :: ts)
    else
      (placeFirstC load fid ts).map (t :: ·)

/-- `step` on instrumented trucks: identical placement logic; a freshly
created truck records how many trucks existed before it (its creation
index). -/
def stepC (capacity : ℚ) (trucks : List TruckC) (f : Farmer) : List TruckC :=
  let load := loadNum f
  let sorted := List.insertionSort (fun a b : TruckC => a.remaining ≤ b.remaining) trucks
  match placeFirstC load f.farmer_id sorted with
  | some ts => ts
  | none => sorted ++ [{ farmers := [f.farmer_id], remaining := pymax (capacity - load) 0,
                         created := sorted.length }]

/-- The instrumented truck list at the end of the loop. -/
def packTrucksC (farmers : List Farmer) (capacity : ℚ) : List TruckC :=
  (valid_sorted farmers).foldl (stepC capacity) []

/-- The spec's stated output ordering, as a second definition following the
spec's words (for comparison with `pack_cluster`): run the same algorithm,
but return the carriers' item-id lists in carrier-creation order — the
order in which `placed = false` triggered a new carrier — rather than in
the final working-list order. -/
def pack_cluster_creation (farmers : List Farmer) (capacity : ℚ) :
    Except String (List (List String)) :=
  match coerceAll farmers with
  | .error e => .error e
  | .ok _ =>
    .ok ((List.insertionSort (fun a b : TruckC => a.created ≤ b.created)
            (packTrucksC farmers capacity)).map TruckC.farmers)

/-- Forget the ghost creation index. -/
def eraseC (t : TruckC) : Truck :=
  { farmers := t.farmers, remaining := t.remaining }

/-- The sum of the loads of the valid farmers carrying a given id (with
unique ids, the load of that farmer). -/
def idLoad (farmers : List Farmer) (fid : String) : ℚ :=
  (((valid_farmers farmers).filter (fun g => g.farmer_id = fid)).map loadNum).sum

/-- All item ids assigned to any truck, in truck order. -/
def joinIds (ts : List Truck) : List String :=
  (ts.map Truck.farmers).flatten

/-- The local variables of one `pack_cluster` call that hold lists: the
`farmers` parameter and the `valid_farmers` and `trucks` locals.  Used to
make the call's writes explicit, one assignment at a time. -/
structure PackVars where
  farmers : List Farmer
  valid_farmers : List Farmer
  trucks : List Truck
deriving DecidableEq

/-- Explicit-state embedding of `pack_cluster`: every statement of the
source is rendered as an update of the variable it assigns to.  The Step 1
comprehension allocates a fresh list bound to `valid_farmers` (reading
`farmers`), `valid_farmers.sort(...)` rebinds `valid_farmers` only, and the
Step 2 loop rebinds `trucks` only; no statement assigns to `farmers` or to
any farmer record.  Returns the final variable state next to the result. -/
def pack_cluster_run (farmers0 : List Farmer) (capacity : ℚ) :
    Except String (PackVars × List (List String)) :=
  let st : PackVars := { farmers := farmers0, valid_farmers := [], trucks := [] }
  match coerceAll st.farmers with
  | .error e => .error e
  | .ok _ =>
    let st : PackVars := { st with valid_farmers := st.farmers.filter (fun f => 0 < loadNum f) }
    let st : PackVars :=
      { st with valid_farmers :=
          List.insertionSort (fun a b => loadNum b ≤ loadNum a) st.valid_farmers }
    let st : PackVars := { st with trucks := st.valid_farmers.foldl (step capacity) st.trucks }
    .ok (st, st.trucks.map Truck.farmers)

/-- The per-truck invariant maintained by the Step 2 loop, relative to the
pool of farmers being packed: the truck's id list comes from a nonempty
list `fs` of pool farmers, and either the truck's loads fit (its remaining
capacity is capacity minus their sum), or it is the clamped oversized
singleton (one farmer whose load exceeds capacity, remaining `0`). -/
def TruckRel (pool : List Farmer) (capacity : ℚ) (t : Truck) : Prop :=
  ∃ fs : List Farmer, fs ≠ [] ∧ fs.map Farmer.farmer_id = t.farmers ∧
    (∀ f ∈ fs, f ∈ pool) ∧
    (((fs.map loadNum).sum ≤ capacity ∧ t.remaining = capacity - (fs.map loadNum).sum) ∨
      (∃ f, fs = [f] ∧ capacity < loadNum f ∧ t.remaining = 0))

end AgriChain

namespace AgriChain

theorem pymax_eq_max (x y : ℚ) : pymax x y = max x y := by
  rw [pymax, max_def]
  split <;> split <;> rename_i h1 h2
  · exact le_antisymm h2 h1
  · rfl
  · rfl
  · exact absurd (le_of_not_le h1) h2

theorem loadNum_pos_of_mem_valid {farmers : List Farmer} {f : Farmer}
    (h : f ∈ valid_farmers farmers) : 0 < loadNum f := by
  simpa using List.of_mem_filter h

theorem perm_valid_sorted (farmers : List Farmer) :
    (valid_sorted farmers).Perm (valid_farmers farmers) :=
  List.perm_insertionSort _ _

theorem mem_valid_of_mem_sorted {farmers : List Farmer} {f : Farmer}
    (h : f ∈ valid_sorted farmers) : f ∈ valid_farmers farmers :=
  (perm_valid_sorted farmers).mem_iff.mp h

theorem pack_cluster_ok {farmers : List Farmer} {capacity : ℚ} {r : List (List String)}
    (h : pack_cluster farmers capacity = .ok r) :
    r = (packTrucks farmers capacity).map Truck.farmers := by
  cases hc : coerceAll farmers with
  | error e => simp [pack_cluster, hc] at h
  | ok v => simp [pack_cluster, hc] at h; exact h.symm

theorem perm_flatten {α : Type} {l₁ l₂ : List (List α)} (h : l₁.Perm l₂) :
    l₁.flatten.Perm l₂.flatten := by
  induction h with
  | nil => exact List.Perm.refl _
  | cons x _ ih => simpa using ih.append_left x
  | swap x y l =>
    simp only [List.flatten_cons, ← List.append_assoc]
    exact List.perm_append_comm.append_right _
  | trans _ _ ih₁ ih₂ => exact ih₁.trans ih₂

theorem joinIds_perm_of_perm {ts ts' : List Truck} (h : ts.Perm ts') :
    (joinIds ts).Perm (joinIds ts') :=
  perm_flatten (h.map Truck.farmers)

theorem joinIds_placeFirst {load : ℚ} {fid : String} :
    ∀ {ts ts' : List Truck}, placeFirst load fid ts = some ts' →
      (joinIds ts').Perm (fid :: joinIds ts)
  | [], _, h => by simp [placeFirst] at h
  | t :: ts, ts', h => by
    rw [placeFirst] at h
    split at h
    · cases h
      simp only [joinIds, List.map_cons, List.flatten_cons, ← List.append_assoc]
      exact (@List.perm_append_comm _ t.farmers [fid]).append_right _
    · cases hp : placeFirst load fid ts with
      | none => rw [hp] at h; cases h
      | some us =>
        rw [hp] at h
        cases h
        simp only [joinIds, List.map_cons, List.flatten_cons]
        exact ((joinIds_placeFirst hp).append_left t.farmers).trans
          (@List.perm_middle _ fid t.farmers (joinIds ts)).symm.symm

theorem joinIds_step (capacity : ℚ) (ts : List Truck) (f : Farmer) :
    (joinIds (step capacity ts f)).Perm (f.farmer_id :: joinIds ts) := by
  rw [step]
  cases hp : placeFirst (loadNum f) f.farmer_id
      (List.insertionSort (fun a b : Truck => a.remaining ≤ b.remaining) ts) with
  | some us =>
    simp only [hp]
    exact (joinIds_placeFirst hp).trans
      ((joinIds_perm_of_perm (List.perm_insertionSort _ ts)).cons _)
  | none =>
    simp only [hp, joinIds, List.map_append, List.flatten_append]
    refine List.Perm.trans ?_
      (((joinIds_perm_of_perm (List.perm_insertionSort
        (fun a b : Truck => a.remaining ≤ b.remaining) ts)).cons f.farmer_id))
    simp [joinIds]

theorem joinIds_foldl (capacity : ℚ) :
    ∀ (l : List Farmer) (ts : List Truck),
      (joinIds (l.foldl (step capacity) ts)).Perm (l.map Farmer.farmer_id ++ joinIds ts)
  | [], ts => by simp
  | f :: l, ts => by
    simp only [List.foldl_cons, List.map_cons, List.cons_append]
    refine ((joinIds_foldl capacity l (step capacity ts f)).trans ?_)
    refine ((joinIds_step capacity ts f).append_left _).trans ?_
    exact @List.perm_middle _ f.farmer_id (l.map Farmer.farmer_id) (joinIds ts)

theorem joinIds_packTrucks (farmers : List Farmer) (capacity : ℚ) :
    (joinIds (packTrucks farmers capacity)).Perm
      ((valid_farmers farmers).map Farmer.farmer_id) := by
  have h := joinIds_foldl capacity (valid_sorted farmers) []
  rw [packTrucks]
  refine h.trans ?_
  simpa [joinIds] using (perm_valid_sorted farmers).map Farmer.farmer_id

end AgriChain

namespace AgriChain

theorem truckRel_placeFirst {pool : List Farmer} {capacity : ℚ} {f : Farmer}
    (hpos : ∀ g ∈ pool, 0 < loadNum g) (hf : f ∈ pool) :
    ∀ {ts ts' : List Truck}, (∀ t ∈ ts, TruckRel pool capacity t) →
      placeFirst (loadNum f) f.farmer_id ts = some ts' →
      ∀ t ∈ ts', TruckRel pool capacity t
  | [], _, _, h => by simp [placeFirst] at h
  | t :: ts, ts', hall, h => by
    rw [placeFirst] at h
    split at h
    · rename_i hfit
      cases h
      intro u hu
      rcases List.mem_cons.mp hu with rfl | hmem
      · obtain ⟨fs, hne, hids, hsub, hrel⟩ := hall t (List.mem_cons_self t ts)
        refine ⟨fs ++ [f], by simp, by simp [hids], ?_, ?_⟩
        · intro g hg
          rcases List.mem_append.mp hg with hg | hg
          · exact hsub g hg
          · rw [List.mem_singleton.mp hg]; exact hf
        · rcases hrel with ⟨hsum, hrem⟩ | ⟨g, rfl, hover, hrem⟩
          · left
            have h2 : loadNum f ≤ capacity - (fs.map loadNum).sum := by
              rw [← hrem]; exact hfit
            constructor
            · simp only [List.map_append, List.sum_append, List.map_cons,
                List.sum_cons, List.map_nil, List.sum_nil]
              linarith
            · simp only [List.map_append, List.sum_append, List.map_cons,
                List.sum_cons, List.map_nil, List.sum_nil, hrem]
              ring
          · exfalso
            have hl : 0 < loadNum f := hpos f hf
            rw [hrem] at hfit
            exact absurd hfit (by simpa using hl)
      · exact hall u (List.mem_cons_of_mem _ hmem)
    · cases hp : placeFirst (loadNum f) f.farmer_id ts with
      | none => rw [hp] at h; cases h
      | some us =>
        rw [hp] at h
        cases h
        intro u hu
        rcases List.mem_cons.mp hu with rfl | hmem
        · exact hall u (List.mem_cons_self u ts)
        · exact truckRel_placeFirst hpos hf
            (fun v hv => hall v (List.mem_cons_of_mem _ hv)) hp u hmem

theorem truckRel_step {pool : List Farmer} {capacity : ℚ} {f : Farmer} {ts : List Truck}
    (hpos : ∀ g ∈ pool, 0 < loadNum g) (hf : f ∈ pool)
    (hall : ∀ t ∈ ts, TruckRel pool capacity t) :
    ∀ t ∈ step capacity ts f, TruckRel pool capacity t := by
  rw [step]
  have hsorted : ∀ t ∈ List.insertionSort (fun a b : Truck => a.remaining ≤ b.remaining) ts,
      TruckRel pool capacity t := fun t ht =>
    hall t ((List.perm_insertionSort _ ts).subset ht)
  cases hp : placeFirst (loadNum f) f.farmer_id
      (List.insertionSort (fun a b : Truck => a.remaining ≤ b.remaining) ts) with
  | some us =>
    simp only [hp]
    exact truckRel_placeFirst hpos hf hsorted hp
  | none =>
    simp only [hp]
    intro u hu
    rcases List.mem_append.mp hu with hu | hu
    · exact hsorted u hu
    · rw [List.mem_singleton.mp hu]
      refine ⟨[f], by simp, by simp, by simpa using hf, ?_⟩
      rcases le_or_lt (loadNum f) capacity with hle | hlt
      · left
        refine ⟨by simpa using hle, ?_⟩
        show pymax (capacity - loadNum f) 0 = _
        rw [pymax, if_pos (by linarith)]
        simp
      · right
        refine ⟨f, rfl, hlt, ?_⟩
        show pymax (capacity - loadNum f) 0 = 0
        rw [pymax, if_neg (by linarith)]

theorem truckRel_foldl {pool : List Farmer} {capacity : ℚ}
    (hpos : ∀ g ∈ pool, 0 < loadNum g) :
    ∀ (l : List Farmer) (ts : List Truck), (∀ f ∈ l, f ∈ pool) →
      (∀ t ∈ ts, TruckRel pool capacity t) →
      ∀ t ∈ l.foldl (step capacity) ts, TruckRel pool capacity t
  | [], ts, _, hall => by simpa using hall
  | f :: l, ts, hl, hall => by
    simp only [List.foldl_cons]
    exact truckRel_foldl hpos l (step capacity ts f)
      (fun g hg => hl g (List.mem_cons_of_mem _ hg))
      (truckRel_step hpos (hl f (List.mem_cons_self f l)) hall)

theorem truckRel_packTrucks (farmers : List Farmer) (capacity : ℚ) :
    ∀ t ∈ packTrucks farmers capacity, TruckRel (valid_farmers farmers) capacity t :=
  truckRel_foldl (fun _ hg => loadNum_pos_of_mem_valid hg)
    (valid_sorted farmers) []
    (fun _ hf => mem_valid_of_mem_sorted hf)
    (by simp)

end AgriChain

namespace AgriChain

theorem map_eraseC_orderedInsert (t : TruckC) :
    ∀ l : List TruckC,
      (List.orderedInsert (fun a b : TruckC => a.remaining ≤ b.remaining) t l).map eraseC =
        List.orderedInsert (fun a b : Truck => a.remaining ≤ b.remaining) (eraseC t)
          (l.map eraseC)
  | [] => rfl
  | u :: l => by
    simp only [List.orderedInsert, List.map_cons, eraseC]
    split <;> rename_i h
    · simp [eraseC]
    · rw [List.map_cons, map_eraseC_orderedInsert t l]
      simp [eraseC]

theorem map_eraseC_insertionSort :
    ∀ l : List TruckC,
      (List.insertionSort (fun a b : TruckC => a.remaining ≤ b.remaining) l).map eraseC =
        List.insertionSort (fun a b : Truck => a.remaining ≤ b.remaining) (l.map eraseC)
  | [] => rfl
  | t :: l => by
    simp only [List.insertionSort, List.map_cons]
    rw [← map_eraseC_insertionSort l, map_eraseC_orderedInsert]

theorem map_eraseC_placeFirst (load : ℚ) (fid : String) :
    ∀ l : List TruckC,
      (placeFirstC load fid l).map (List.map eraseC) = placeFirst load fid (l.map eraseC)
  | [] => rfl
  | t :: l => by
    simp only [placeFirstC, placeFirst, List.map_cons, eraseC]
    split <;> rename_i h
    · simp [eraseC]
    · rw [← map_eraseC_placeFirst load fid l]
      cases placeFirstC load fid l <;> simp [eraseC]

theorem map_eraseC_step (capacity : ℚ) (ts : List TruckC) (f : Farmer) :
    (stepC capacity ts f).map eraseC = step capacity (ts.map eraseC) f := by
  simp only [stepC, step]
  rw [← map_eraseC_insertionSort ts,
    ← map_eraseC_placeFirst (loadNum f) f.farmer_id
      (List.insertionSort (fun a b : TruckC => a.remaining ≤ b.remaining) ts)]
  cases placeFirstC (loadNum f) f.farmer_id
      (List.insertionSort (fun a b : TruckC => a.remaining ≤ b.remaining) ts) with
  | some us => rfl
  | none => simp [eraseC]

theorem map_eraseC_foldl (capacity : ℚ) :
    ∀ (l : List Farmer) (ts : List TruckC),
      (l.foldl (stepC capacity) ts).map eraseC = l.foldl (step capacity) (ts.map eraseC)
  | [], _ => rfl
  | f :: l, ts => by
    simp only [List.foldl_cons]
    rw [map_eraseC_foldl capacity l, map_eraseC_step]

theorem packTrucks_eq_erase (farmers : List Farmer) (capacity : ℚ) :
    packTrucks farmers capacity = (packTrucksC farmers capacity).map eraseC := by
  rw [packTrucks, packTrucksC, map_eraseC_foldl]
  rfl

theorem orderedInsert_remaining_zero {t : Truck} (ht : t.remaining = 0) :
    ∀ {ts : List Truck}, (∀ u ∈ ts, u.remaining = 0) →
      List.orderedInsert (fun a b : Truck => a.remaining ≤ b.remaining) t ts = t :: ts
  | [], _ => rfl
  | u :: ts, hall => by
    simp only [List.orderedInsert]
    rw [if_pos]
    rw [ht, hall u (List.mem_cons_self u ts)]

theorem insertionSort_remaining_zero :
    ∀ {ts : List Truck}, (∀ u ∈ ts, u.remaining = 0) →
      List.insertionSort (fun a b : Truck => a.remaining ≤ b.remaining) ts = ts
  | [], _ => rfl
  | t :: ts, hall => by
    simp only [List.insertionSort]
    rw [insertionSort_remaining_zero (fun u hu => hall u (List.mem_cons_of_mem _ hu))]
    exact orderedInsert_remaining_zero (hall t (List.mem_cons_self t ts))
      (fun u hu => hall u (List.mem_cons_of_mem _ hu))

theorem placeFirst_remaining_zero {load : ℚ} {fid : String} (hload : 0 < load) :
    ∀ {ts : List Truck}, (∀ u ∈ ts, u.remaining = 0) → placeFirst load fid ts = none
  | [], _ => rfl
  | t :: ts, hall => by
    rw [placeFirst,
      if_neg (by rw [hall t (List.mem_cons_self t ts)]; exact not_le.mpr hload),
      placeFirst_remaining_zero hload (fun u hu => hall u (List.mem_cons_of_mem _ hu))]
    rfl

theorem foldl_cap_nonpos {capacity : ℚ} (hcap : capacity ≤ 0) :
    ∀ (l : List Farmer) (ts : List Truck), (∀ f ∈ l, 0 < loadNum f) →
      (∀ u ∈ ts, u.remaining = 0) →
      l.foldl (step capacity) ts =
        ts ++ l.map (fun f => { farmers := [f.farmer_id], remaining := 0 })
  | [], ts, _, _ => by simp
  | f :: l, ts, hl, hall => by
    have hpos : 0 < loadNum f := hl f (List.mem_cons_self f l)
    have hstep : step capacity ts f =
        ts ++ [{ farmers := [f.farmer_id], remaining := 0 }] := by
      simp only [step]
      rw [insertionSort_remaining_zero hall, placeFirst_remaining_zero hpos hall]
      have hmz : pymax (capacity - loadNum f) 0 = 0 := by
        rw [pymax, if_neg (by linarith)]
      rw [hmz]
    simp only [List.foldl_cons, hstep]
    rw [foldl_cap_nonpos hcap l _ (fun g hg => hl g (List.mem_cons_of_mem _ hg))
      (by
        intro u hu
        rcases List.mem_append.mp hu with h | h
        · exact hall u h
        · rw [List.mem_singleton.mp h])]
    simp

theorem packTrucks_cap_nonpos {farmers : List Farmer} {capacity : ℚ}
    (hcap : capacity ≤ 0) :
    packTrucks farmers capacity =
      (valid_sorted farmers).map (fun f => { farmers := [f.farmer_id], remaining := 0 }) := by
  rw [packTrucks]
  rw [foldl_cap_nonpos hcap (valid_sorted farmers) []
    (fun f hf => loadNum_pos_of_mem_valid (mem_valid_of_mem_sorted hf)) (by simp)]
  simp

end AgriChain

namespace AgriChain

theorem coerceAll_error_of_nonNumeric {s : String} :
    ∀ {farmers : List Farmer} {f : Farmer}, f ∈ farmers →
      getLoadVal f = .nonNumeric s → ∃ e, coerceAll farmers = .error e := by
  intro farmers
  induction farmers with
  | nil => intro f h _; cases h
  | cons g fs ih =>
    intro f hmem hnn
    rcases List.mem_cons.mp hmem with rfl | hmem
    · exact ⟨"could not convert string to float: " ++ s,
        by simp [coerceAll, hnn, floatVal]⟩
    · cases hg : floatVal (getLoadVal g) with
      | error e => exact ⟨e, by simp [coerceAll, hg]⟩
      | ok v =>
        obtain ⟨e, he⟩ := ih hmem hnn
        exact ⟨e, by simp [coerceAll, hg, he]⟩

theorem count_flatten_eq_sum (x : String) :
    ∀ l : List (List String), l.flatten.count x = (l.map (fun c => c.count x)).sum
  | [] => rfl
  | c :: l => by
    simp [List.count_append, count_flatten_eq_sum x l]

theorem countP_mem_of_count_one (x : String) :
    ∀ l : List (List String), l.flatten.count x = 1 →
      l.countP (fun c => decide (x ∈ c)) = 1
  | [], h => by simp at h
  | c :: l, h => by
    rw [List.flatten_cons, List.count_append] at h
    rw [List.countP_cons]
    rcases (by omega : (c.count x = 0 ∧ l.flatten.count x = 1) ∨
        (c.count x = 1 ∧ l.flatten.count x = 0)) with ⟨h1, h2⟩ | ⟨h1, h2⟩
    · have hx : x ∉ c := List.count_eq_zero.mp h1
      simp [hx, countP_mem_of_count_one x l h2]
    · have hx : x ∈ c := by
        have hpos : 0 < c.count x := by omega
        exact List.count_pos_iff.mp hpos
      have hrest : l.countP (fun d => decide (x ∈ d)) = 0 := by
        rw [List.countP_eq_zero]
        intro d hd
        simp only [decide_eq_true_eq]
        intro hxd
        have hpos : 0 < l.flatten.count x :=
          List.count_pos_iff.mpr (List.mem_flatten.mpr ⟨d, hd, hxd⟩)
        omega
      simp [hx, hrest]

theorem filter_id_eq_singleton :
    ∀ {l : List Farmer}, (l.map Farmer.farmer_id).Nodup → ∀ {f : Farmer}, f ∈ l →
      l.filter (fun g => g.farmer_id = f.farmer_id) = [f] := by
  intro l
  induction l with
  | nil => intro _ f h; cases h
  | cons g fs ih =>
    intro hnd f hmem
    rw [List.map_cons, List.nodup_cons] at hnd
    obtain ⟨hg, hnd'⟩ := hnd
    rcases List.mem_cons.mp hmem with rfl | hmem
    · rw [List.filter_cons, if_pos (by simp)]
      have hnil : fs.filter (fun g => g.farmer_id = f.farmer_id) = [] := by
        rw [List.filter_eq_nil_iff]
        intro d hd
        simp only [decide_eq_true_eq]
        intro hid
        exact hg (by rw [← hid]; exact List.mem_map_of_mem Farmer.farmer_id hd)
      rw [hnil]
    · have hne : ¬ (g.farmer_id = f.farmer_id) := fun hid =>
        hg (by rw [hid]; exact List.mem_map_of_mem Farmer.farmer_id hmem)
      rw [List.filter_cons, if_neg (by simpa using hne), ih hnd' hmem]

theorem idLoad_eq_loadNum {farmers : List Farmer} {f : Farmer}
    (hnd : ((valid_farmers farmers).map Farmer.farmer_id).Nodup)
    (hf : f ∈ valid_farmers farmers) :
    idLoad farmers f.farmer_id = loadNum f := by
  rw [idLoad, filter_id_eq_singleton hnd hf]
  simp

theorem eq_of_mem_valid_of_id_eq {farmers : List Farmer} {f g : Farmer}
    (hnd : ((valid_farmers farmers).map Farmer.farmer_id).Nodup)
    (hf : f ∈ valid_farmers farmers) (hg : g ∈ valid_farmers farmers)
    (hid : f.farmer_id = g.farmer_id) : f = g := by
  have h1 := filter_id_eq_singleton hnd hf
  have h2 : g ∈ (valid_farmers farmers).filter (fun x => x.farmer_id = f.farmer_id) := by
    rw [List.mem_filter]
    exact ⟨hg, by simp [hid.symm]⟩
  rw [h1] at h2
  exact (List.mem_singleton.mp h2).symm

end AgriChain

namespace AgriChain

theorem pack_cluster_creation_ok {farmers : List Farmer} {capacity : ℚ}
    {rc : List (List String)}
    (h : pack_cluster_creation farmers capacity = .ok rc) :
    rc = (List.insertionSort (fun a b : TruckC => a.created ≤ b.created)
        (packTrucksC farmers capacity)).map TruckC.farmers := by
  cases hc : coerceAll farmers with
  | error e => simp [pack_cluster_creation, hc] at h
  | ok v =>
    simp [pack_cluster_creation, hc] at h
    exact h.symm

/-- C1: the claim asserts the output carrier order equals carrier-creation
order; on the code it does not.  For items `[(A,4000),(B,3000),(C,2000),
(D,1000)]` with capacity `5000`, `pack_cluster` returns `[[B,C],[A,D]]`
(the final working-list order: trucks re-sorted by remaining capacity
before the last placement), while the creation order — computed by the
spec-words variant `pack_cluster_creation` — is `[[A,D],[B,C]]`; the two
outputs differ. -/
theorem C1_counterexample :
    pack_cluster [⟨"A", some (.num 4000)⟩, ⟨"B", some (.num 3000)⟩,
        ⟨"C", some (.num 2000)⟩, ⟨"D", some (.num 1000)⟩] 5000 =
      .ok [["B", "C"], ["A", "D"]] ∧
    pack_cluster_creation [⟨"A", some (.num 4000)⟩, ⟨"B", some (.num 3000)⟩,
        ⟨"C", some (.num 2000)⟩, ⟨"D", some (.num 1000)⟩] 5000 =
      .ok [["A", "D"], ["B", "C"]] ∧
    ([["B", "C"], ["A", "D"]] : List (List String)) ≠ [["A", "D"], ["B", "C"]] := by
  refine ⟨?_, ?_, by decide⟩
  · norm_num [pack_cluster, packTrucks, valid_sorted, valid_farmers, coerceAll, floatVal,
      getLoadVal, loadNum, step, placeFirst, pymax, List.insertionSort, List.orderedInsert]
  · norm_num [pack_cluster_creation, packTrucksC, valid_sorted, valid_farmers, coerceAll,
      floatVal, getLoadVal, loadNum, stepC, placeFirstC, pymax, List.insertionSort,
      List.orderedInsert]

/-- C1 (amended): the sequence of carriers returned by `pack_cluster` is
the final working-list order (the most recently computed
sorted-by-remaining-capacity order, with carriers created after that sort
appended), not carrier-creation order; it holds the same carriers as the
creation-order output, as a permutation. -/
theorem C1_amended {farmers : List Farmer} {capacity : ℚ} {r rc : List (List String)}
    (h : pack_cluster farmers capacity = .ok r)
    (hc : pack_cluster_creation farmers capacity = .ok rc) :
    r.Perm rc := by
  rw [pack_cluster_ok h, pack_cluster_creation_ok hc, packTrucks_eq_erase, List.map_map]
  have hcomp : Truck.farmers ∘ eraseC = TruckC.farmers := rfl
  rw [hcomp]
  exact ((List.perm_insertionSort (fun a b : TruckC => a.created ≤ b.created)
    (packTrucksC farmers capacity)).map TruckC.farmers).symm

/-- Witness for `C1_amended` at the counterexample input. -/
theorem C1_amended_witness :
    ([["B", "C"], ["A", "D"]] : List (List String)).Perm [["A", "D"], ["B", "C"]] :=
  @C1_amended
    [⟨"A", some (.num 4000)⟩, ⟨"B", some (.num 3000)⟩,
      ⟨"C", some (.num 2000)⟩, ⟨"D", some (.num 1000)⟩]
    5000 [["B", "C"], ["A", "D"]] [["A", "D"], ["B", "C"]]
    (by norm_num [pack_cluster, packTrucks, valid_sorted, valid_farmers, coerceAll,
      floatVal, getLoadVal, loadNum, step, placeFirst, pymax, List.insertionSort,
      List.orderedInsert])
    (by norm_num [pack_cluster_creation, packTrucksC, valid_sorted, valid_farmers,
      coerceAll, floatVal, getLoadVal, loadNum, stepC, placeFirstC, pymax,
      List.insertionSort, List.orderedInsert])

/-- C2: the claim asserts a non-coercible load is silently skipped and that
`[(A,0),(B,-5),(C,"bad")]` with capacity `5000` yields the empty result; on
the code, `float("bad")` raises inside the Step 1 comprehension, so the
whole call fails instead of returning `ok []`. -/
theorem C2_counterexample :
    pack_cluster [⟨"A", some (.num 0)⟩, ⟨"B", some (.num (-5))⟩,
        ⟨"C", some (.nonNumeric "bad")⟩] 5000 =
      .error "could not convert string to float: bad" ∧
    pack_cluster [⟨"A", some (.num 0)⟩, ⟨"B", some (.num (-5))⟩,
        ⟨"C", some (.nonNumeric "bad")⟩] 5000 ≠ .ok [] := by
  refine ⟨rfl, fun h => ?_⟩
  rw [show pack_cluster [⟨"A", some (.num 0)⟩, ⟨"B", some (.num (-5))⟩,
      ⟨"C", some (.nonNumeric "bad")⟩] 5000 =
    .error "could not convert string to float: bad" from rfl] at h
  exact Except.noConfusion h

/-- C2 (amended): an item whose load value cannot be coerced to a number is
not silently excluded; whenever any input item's `load_kg` value is
non-coercible, `pack_cluster` fails with a conversion error (so the call
with `[(A,0),(B,-5),(C,"bad")]` errors rather than returning the empty
result; items with numeric load ≤ 0 are the ones silently excluded). -/
theorem C2_amended {farmers : List Farmer} {capacity : ℚ} {f : Farmer} {s : String}
    (hmem : f ∈ farmers) (hnn : getLoadVal f = .nonNumeric s) :
    ∃ e, pack_cluster farmers capacity = .error e := by
  obtain ⟨e, he⟩ := coerceAll_error_of_nonNumeric hmem hnn
  exact ⟨e, by simp [pack_cluster, he]⟩

/-- Witness for `C2_amended` at the claim's example input. -/
theorem C2_amended_witness :
    ∃ e, pack_cluster [⟨"A", some (.num 0)⟩, ⟨"B", some (.num (-5))⟩,
        ⟨"C", some (.nonNumeric "bad")⟩] 5000 = .error e :=
  C2_amended (f := ⟨"C", some (.nonNumeric "bad")⟩) (s := "bad") (by simp) rfl

/-- C3: the claim asserts `pack_cluster` raises an InvalidArgument-style
error for capacity ≤ 0; the code has no such guard — with capacity `0` and
the single valid item `(A,10)` it returns a normal result (one singleton
carrier) and raises nothing. -/
theorem C3_counterexample :
    pack_cluster [⟨"A", some (.num 10)⟩] 0 = .ok [["A"]] ∧
    ∀ e : String, pack_cluster [⟨"A", some (.num 10)⟩] 0 ≠ .error e := by
  refine ⟨rfl, fun e h => ?_⟩
  rw [show pack_cluster [⟨"A", some (.num 10)⟩] 0 = .ok [["A"]] from rfl] at h
  exact Except.noConfusion h

/-- C3 (amended): for capacity ≤ 0 `pack_cluster` does not fail; it
silently degrades, returning one singleton carrier per valid item, in
descending-load order (none of them can fit in any existing carrier, whose
clamped remaining capacity is `0`). -/
theorem C3_amended {farmers : List Farmer} {capacity : ℚ} {r : List (List String)}
    (hcap : capacity ≤ 0) (h : pack_cluster farmers capacity = .ok r) :
    r = (valid_sorted farmers).map (fun f => [f.farmer_id]) := by
  rw [pack_cluster_ok h, packTrucks_cap_nonpos hcap, List.map_map]
  rfl

/-- Witness for `C3_amended` at capacity `0`. -/
theorem C3_amended_witness :
    (0 : ℚ) ≤ 0 ∧
      [["A"]] = (valid_sorted [⟨"A", some (.num 10)⟩]).map (fun f => [f.farmer_id]) :=
  ⟨le_refl 0, C3_amended (le_refl 0) rfl⟩

end AgriChain

namespace AgriChain

/-- C4: for unique ids and positive capacity, every carrier in a successful
`pack_cluster` result — other than a singleton carrier whose one item's
load exceeds capacity — has total assigned load at most the capacity. -/
theorem C4_capacity_invariant {farmers : List Farmer} {capacity : ℚ}
    {r : List (List String)}
    (hnd : ((valid_farmers farmers).map Farmer.farmer_id).Nodup)
    (_hcap : 0 < capacity)
    (h : pack_cluster farmers capacity = .ok r) :
    ∀ c ∈ r, (∀ fid, c = [fid] → idLoad farmers fid ≤ capacity) →
      (c.map (idLoad farmers)).sum ≤ capacity := by
  intro c hc hexc
  rw [pack_cluster_ok h] at hc
  obtain ⟨t, ht, rfl⟩ := List.mem_map.mp hc
  obtain ⟨fs, hne, hids, hsub, hrel⟩ := truckRel_packTrucks farmers capacity t ht
  have hmapload : t.farmers.map (idLoad farmers) = fs.map loadNum := by
    rw [← hids, List.map_map]
    exact List.map_congr_left fun g hg => idLoad_eq_loadNum hnd (hsub g hg)
  rcases hrel with ⟨hsum, _⟩ | ⟨g, rfl, hover, _⟩
  · rw [hmapload]
    exact hsum
  · exfalso
    have h1 : t.farmers = [g.farmer_id] := by rw [← hids]; simp
    have h2 := hexc g.farmer_id h1
    rw [idLoad_eq_loadNum hnd (hsub g (List.mem_singleton_self g))] at h2
    linarith

/-- Witness for `C4_capacity_invariant` on `[(A,2500),(B,2500),(C,2500)]`,
capacity `5000`, at the carrier `[A,B]`. -/
theorem C4_capacity_invariant_witness :
    ((["A", "B"] : List String).map
        (idLoad [⟨"A", some (.num 2500)⟩, ⟨"B", some (.num 2500)⟩,
          ⟨"C", some (.num 2500)⟩])).sum ≤ 5000 :=
  @C4_capacity_invariant
    [⟨"A", some (.num 2500)⟩, ⟨"B", some (.num 2500)⟩, ⟨"C", some (.num 2500)⟩]
    5000 [["A", "B"], ["C"]] (by decide) (by norm_num)
    (by norm_num [pack_cluster, packTrucks, valid_sorted, valid_farmers, coerceAll,
      floatVal, getLoadVal, loadNum, step, placeFirst, pymax, List.insertionSort,
      List.orderedInsert])
    ["A", "B"] (by simp) (by intro fid hfid; simp at hfid)

/-- C5: with unique ids and positive capacity, every valid item's id occurs
exactly once in the flattened successful result, and exactly one carrier
contains it. -/
theorem C5_completeness {farmers : List Farmer} {capacity : ℚ}
    {r : List (List String)} {f : Farmer}
    (hnd : ((valid_farmers farmers).map Farmer.farmer_id).Nodup)
    (_hcap : 0 < capacity)
    (h : pack_cluster farmers capacity = .ok r)
    (hf : f ∈ valid_farmers farmers) :
    r.flatten.count f.farmer_id = 1 ∧
      r.countP (fun c => decide (f.farmer_id ∈ c)) = 1 := by
  have hperm := joinIds_packTrucks farmers capacity
  simp only [joinIds] at hperm
  have hcount : r.flatten.count f.farmer_id = 1 := by
    rw [pack_cluster_ok h, hperm.count_eq]
    exact List.count_eq_one_of_mem hnd (List.mem_map_of_mem _ hf)
  exact ⟨hcount, countP_mem_of_count_one _ r hcount⟩

/-- Witness for `C5_completeness` on `[(A,2500),(B,2500),(C,2500)]`,
capacity `5000`, at item `A`. -/
theorem C5_completeness_witness :
    ([["A", "B"], ["C"]] : List (List String)).flatten.count "A" = 1 ∧
      ([["A", "B"], ["C"]] : List (List String)).countP
        (fun c => decide ("A" ∈ c)) = 1 :=
  @C5_completeness
    [⟨"A", some (.num 2500)⟩, ⟨"B", some (.num 2500)⟩, ⟨"C", some (.num 2500)⟩]
    5000 [["A", "B"], ["C"]] ⟨"A", some (.num 2500)⟩ (by decide) (by norm_num)
    (by norm_num [pack_cluster, packTrucks, valid_sorted, valid_farmers, coerceAll,
      floatVal, getLoadVal, loadNum, step, placeFirst, pymax, List.insertionSort,
      List.orderedInsert])
    (by decide)

/-- C6: with unique ids and positive capacity, a valid item whose load
exceeds the capacity is still placed, alone, in a carrier whose remaining
capacity is clamped to `0`, and its singleton carrier appears in the
result. -/
theorem C6_oversized_singleton {farmers : List Farmer} {capacity : ℚ}
    {r : List (List String)} {f : Farmer}
    (hnd : ((valid_farmers farmers).map Farmer.farmer_id).Nodup)
    (_hcap : 0 < capacity)
    (h : pack_cluster farmers capacity = .ok r)
    (hf : f ∈ valid_farmers farmers) (hover : capacity < loadNum f) :
    ∃ t ∈ packTrucks farmers capacity,
      t.farmers = [f.farmer_id] ∧ t.remaining = 0 ∧ [f.farmer_id] ∈ r := by
  have hmem : f.farmer_id ∈ joinIds (packTrucks farmers capacity) :=
    (joinIds_packTrucks farmers capacity).mem_iff.mpr (List.mem_map_of_mem _ hf)
  simp only [joinIds] at hmem
  obtain ⟨c, hc, hfc⟩ := List.mem_flatten.mp hmem
  obtain ⟨t, ht, rfl⟩ := List.mem_map.mp hc
  obtain ⟨fs, hne, hids, hsub, hrel⟩ := truckRel_packTrucks farmers capacity t ht
  rw [← hids] at hfc
  obtain ⟨g, hg, hgid⟩ := List.mem_map.mp hfc
  have hgf : g = f := eq_of_mem_valid_of_id_eq hnd (hsub g hg) hf hgid
  subst hgf
  rcases hrel with ⟨hsum, _⟩ | ⟨u, hfs, hoveru, hrem⟩
  · exfalso
    have hle : loadNum g ≤ (fs.map loadNum).sum := by
      refine List.single_le_sum ?_ _ (List.mem_map_of_mem _ hg)
      intro x hx
      obtain ⟨y, hy, rfl⟩ := List.mem_map.mp hx
      exact (loadNum_pos_of_mem_valid (hsub y hy)).le
    linarith
  · have hgu : g = u := by
      rw [hfs] at hg
      exact List.mem_singleton.mp hg
    subst hgu
    refine ⟨t, ht, ?_, hrem, ?_⟩
    · rw [← hids, hfs]; simp
    · rw [pack_cluster_ok h]
      have hT : t.farmers = [g.farmer_id] := by rw [← hids, hfs]; simp
      rw [← hT]
      exact List.mem_map_of_mem _ ht

/-- Witness for `C6_oversized_singleton` on `[(A,6000)]`, capacity `5000`. -/
theorem C6_oversized_singleton_witness :
    ∃ t ∈ packTrucks [⟨"A", some (.num 6000)⟩] 5000,
      t.farmers = ["A"] ∧ t.remaining = 0 ∧ ["A"] ∈ [["A"]] :=
  @C6_oversized_singleton [⟨"A", some (.num 6000)⟩] 5000 [["A"]]
    ⟨"A", some (.num 6000)⟩ (by decide) (by norm_num) rfl (by decide) (by decide)

/-- C7: on `[(A,2500),(B,2500),(C,2500)]` with capacity `5000`, the result
is exactly two carriers, `[A,B]` (an exact fit, remaining `0`) and `[C]`. -/
theorem C7_exact_fit :
    pack_cluster [⟨"A", some (.num 2500)⟩, ⟨"B", some (.num 2500)⟩,
        ⟨"C", some (.num 2500)⟩] 5000 = .ok [["A", "B"], ["C"]] := by
  norm_num [pack_cluster, packTrucks, valid_sorted, valid_farmers, coerceAll, floatVal,
    getLoadVal, loadNum, step, placeFirst, pymax, List.insertionSort, List.orderedInsert]

/-- C8: `pack_cluster` is deterministic — equal inputs (same list, same
order, same capacity) give identical outputs. -/
theorem C8_deterministic (farmers1 farmers2 : List Farmer) (capacity1 capacity2 : ℚ)
    (hfa : farmers1 = farmers2) (hcap : capacity1 = capacity2) :
    pack_cluster farmers1 capacity1 = pack_cluster farmers2 capacity2 := by
  rw [hfa, hcap]

/-- Witness for `C8_deterministic`. -/
theorem C8_deterministic_witness :
    pack_cluster [⟨"A", some (.num 1)⟩] 5 = pack_cluster [⟨"A", some (.num 1)⟩] 5 :=
  C8_deterministic _ _ _ _ rfl rfl

/-- C9: no carrier in a successful `pack_cluster` result is empty. -/
theorem C9_no_empty_carriers {farmers : List Farmer} {capacity : ℚ}
    {r : List (List String)} (h : pack_cluster farmers capacity = .ok r) :
    ∀ c ∈ r, c ≠ [] := by
  intro c hc
  rw [pack_cluster_ok h] at hc
  obtain ⟨t, ht, rfl⟩ := List.mem_map.mp hc
  obtain ⟨fs, hne, hids, _, _⟩ := truckRel_packTrucks farmers capacity t ht
  rw [← hids]
  simpa using hne

/-- Witness for `C9_no_empty_carriers` on `[(A,10)]`, capacity `5`. -/
theorem C9_no_empty_carriers_witness :
    pack_cluster [⟨"A", some (.num 10)⟩] 5 = .ok [["A"]] ∧
      (["A"] : List String) ≠ [] :=
  ⟨rfl, @C9_no_empty_carriers [⟨"A", some (.num 10)⟩] 5 [["A"]] rfl ["A"] (by simp)⟩

/-- C10: `pack_cluster` does not modify its input: in the explicit-state
embedding `pack_cluster_run`, the `farmers` variable at the end of a
successful call equals the input list (same records, same order), and the
returned result is exactly that of `pack_cluster`. -/
theorem C10_input_unchanged {farmers : List Farmer} {capacity : ℚ}
    {st : PackVars} {r : List (List String)}
    (h : pack_cluster_run farmers capacity = .ok (st, r)) :
    st.farmers = farmers ∧ pack_cluster farmers capacity = .ok r := by
  cases hc : coerceAll farmers with
  | error e => simp [pack_cluster_run, hc] at h
  | ok v =>
    simp only [pack_cluster_run, hc, Except.ok.injEq, Prod.mk.injEq] at h
    obtain ⟨hst, hr⟩ := h
    constructor
    · rw [← hst]
    · rw [pack_cluster, hc, ← hr]
      simp [packTrucks, valid_sorted, valid_farmers]

/-- Witness for `C10_input_unchanged` on `[(A,10)]`, capacity `5`. -/
theorem C10_input_unchanged_witness :
    ({ farmers := [⟨"A", some (.num 10)⟩],
       valid_farmers := [⟨"A", some (.num 10)⟩],
       trucks := [{ farmers := ["A"], remaining := pymax (5 - 10) 0 }] } :
        PackVars).farmers = [⟨"A", some (.num 10)⟩] ∧
      pack_cluster [⟨"A", some (.num 10)⟩] 5 = .ok [["A"]] :=
  C10_input_unchanged rfl

end AgriChain
